import Mathlib

/-!
# Verification of the `IterableWeakMap` / `IterableWeakSet` containers

Shallow embedding of `src/packages/weak_map/mod.ts` and
`src/packages/weak_set/mod.ts` from the `@iter` (nberlette/iterable)
repository, together with proofs about the embedded operations.

Modelling conventions:

* A weakly-referenceable identity (an object) is identified by a `Nat` id.
  The ambient heap is represented by a list `live : List Nat` of the ids of
  the objects that have not been reclaimed.
* A `WeakRef` is a handle `WRef` carrying its own identity `rid` (JS compares
  `WeakRef` objects by reference identity, e.g. in `Set.prototype.delete`)
  and the id of its immutable target.  `WRef.deref` resolves the target
  against `live`.
* The private `#map : WeakMap` field is an association list from object id to
  payload.  A JS `WeakMap` exposes no enumeration order, so the list order is
  irrelevant; `aget`/`aput`/`adel` model `get`/`set`/`delete`.  `WeakMap`
  methods applied to a non-weakly-referenceable key follow the ECMAScript
  semantics: `get`/`delete` report "not found", `set` throws a `TypeError`.
* The private `#set : Set<WeakRef>` field is a duplicate-free insertion-order
  list of handles, since `Set` iteration order is observable.
* The shared `FinalizationRegistry` is modelled by the `regs` component: the
  list of currently armed registrations `(unregister token id, held ref)`.
  `register` appends, `unregister` filters by token id and throws a
  `TypeError` on a non-weakly-referenceable token, per ECMAScript.
* Fallible operations return the (possibly partially) mutated state together
  with an `Except JSError` result, so that "throws and leaves the state
  unchanged" is expressible.
-/

/-- A JavaScript value, as far as the containers can distinguish them:
a weakly-referenceable object identity (`obj`), or one of the primitive
shapes that `WeakRef`/`WeakMap` reject (string, number, boolean, `null`,
`undefined`).  `=` on this type models JS strict equality `===` for the
values the containers handle (object identity; primitives by value). -/
inductive JSVal where
  | obj (id : Nat)
  | str (s : String)
  | num (n : Int)
  | bool (b : Bool)
  | null
  | undefined
deriving DecidableEq, Repr

/-- The ECMAScript `CanBeHeldWeakly` test: only object identities (and
unregistered symbols, which we fold into `obj`) qualify. -/
def canBeHeldWeakly : JSVal → Bool
  | .obj _ => true
  | _ => false

/-- The errors the embedded code can raise (all of them are `TypeError`s). -/
inductive JSError where
  | typeError
deriving DecidableEq, Repr

/-- A `WeakRef` handle: `rid` is the handle's own identity (fresh per
`new WeakRef(...)`), `target` the id of the object it was created for. -/
structure WRef where
  rid : Nat
  target : Nat
deriving DecidableEq, Repr

/-- `WeakRef.prototype.deref`: the target object if it is still live,
otherwise `undefined` (modelled as `none`). -/
def WRef.deref (r : WRef) (live : List Nat) : Option Nat :=
  if r.target ∈ live then some r.target else none

/-- The JS expression `k?.deref()` as a `JSVal`: `undefined` when the
optional handle is absent or its target has been reclaimed. -/
def optDerefVal (k : Option WRef) (live : List Nat) : JSVal :=
  match k with
  | none => .undefined
  | some r =>
    match r.deref live with
    | some t => .obj t
    | none => .undefined

/-- `WeakMap.prototype.get`, restricted to object keys (the caller handles
the invalid-key cases). -/
def aget (m : List (Nat × α)) (i : Nat) : Option α :=
  (m.find? (fun p => decide (p.1 = i))).map (·.2)

/-- `WeakMap.prototype.set` on object key `i` (replace or insert).  A JS
`WeakMap` exposes no enumeration, so the position of the updated binding in
the association list is unobservable. -/
def aput (m : List (Nat × α)) (i : Nat) (a : α) : List (Nat × α) :=
  (i, a) :: m.filter (fun p => decide (p.1 ≠ i))

/-- `WeakMap.prototype.delete` on object key `i`. -/
def adel (m : List (Nat × α)) (i : Nat) : List (Nat × α) :=
  m.filter (fun p => decide (p.1 ≠ i))

/-- `Set.prototype.add` on the registry of handles (no-op on a handle that
is already a member, append otherwise). -/
def setAdd (s : List WRef) (r : WRef) : List WRef :=
  if r ∈ s then s else s ++ [r]

/-- `Set.prototype.delete` on the registry of handles. -/
def setDel (s : List WRef) (r : WRef) : List WRef :=
  s.filter (fun x => decide (x ≠ r))

/-! ## `IterableWeakMap` (src/packages/weak_map/mod.ts) -/

/-- The private state of an `IterableWeakMap<K, V>`:
`map` is `#map : WeakMap<K, {k: WeakRef<K>, v: V}>`, `set` is
`#set : Set<WeakRef<K>>`, `regs` the armed registrations of the shared
`FinalizationRegistry` that belong to this instance, and `nextRid` the
allocator for fresh `WeakRef` identities. -/
structure MapState (V : Type) where
  map : List (Nat × WRef × V)
  set : List WRef
  regs : List (Nat × WRef)
  nextRid : Nat
deriving DecidableEq

/-- A freshly constructed, empty `IterableWeakMap`. -/
def IterableWeakMap.emptyMap (V : Type) : MapState V := ⟨[], [], [], 0⟩

/-- `this.#map.get(key)` for an arbitrary `JSVal` key: per ECMAScript,
`WeakMap.prototype.get` returns `undefined` on a key that cannot be held
weakly. -/
def IterableWeakMap.wmGet (st : MapState V) (key : JSVal) : Option (WRef × V) :=
  match key with
  | .obj i => aget st.map i
  | _ => none

/-- The `size` getter (lines 254-258):
`let n = 0; for (const ref of this.#set) ref.deref() && n++; return n`.
The getter mutates nothing, so the instance state is returned unchanged. -/
def IterableWeakMap.sizeRun (st : MapState V) (live : List Nat) :
    Nat × MapState V :=
  (st.set.foldl (fun n r => if (r.deref live).isSome then n + 1 else n) 0, st)

/-- `IterableWeakMap.prototype.get` (lines 343-347). -/
def IterableWeakMap.get (st : MapState V) (live : List Nat) (key : JSVal) :
    Option V :=
  let e := IterableWeakMap.wmGet st key
  if optDerefVal (e.map (·.1)) live = key then e.map (·.2) else none

/-- `IterableWeakMap.prototype.has` (lines 366-370). -/
def IterableWeakMap.has (st : MapState V) (live : List Nat) (key : JSVal) :
    Bool :=
  decide (optDerefVal ((IterableWeakMap.wmGet st key).map (·.1)) live = key)

/-- `IterableWeakMap.prototype.delete` (lines 307-316).  In the guarded
branch the code first calls `this.#reg.unregister(key)`, which throws a
`TypeError` when `key` cannot be held weakly; the guard
`k?.deref() === key` is satisfied by a non-object key only when
`key === undefined` (then `k` is `undefined` as well), and in that case the
method throws before mutating anything. -/
def IterableWeakMap.delete (st : MapState V) (live : List Nat) (key : JSVal) :
    MapState V × Except JSError Bool :=
  let k0 := (IterableWeakMap.wmGet st key).map (·.1)
  if optDerefVal k0 live = key then
    match key, k0 with
    | .obj i, some r =>
        ({ st with regs := adel st.regs i, map := adel st.map i,
                   set := setDel st.set r }, .ok true)
    | _, _ => (st, .error .typeError)
  else (st, .ok false)

/-- `IterableWeakMap.prototype.set` (lines 386-397).  When the stored handle
still resolves to `key`, only the payload is replaced (`#map.set(key,
{k, v: value})` with the old handle `k`); `#map.set` throws a `TypeError`
when `key` cannot be held weakly (reachable there only with
`key === undefined`).  Otherwise a fresh `WeakRef` is created first — which
throws the `TypeError` for every non-object key before any mutation — then
the registration, index entry and registry entry are installed. -/
def IterableWeakMap.set (st : MapState V) (live : List Nat) (key : JSVal)
    (value : V) : MapState V × Except JSError Unit :=
  let k0 := (IterableWeakMap.wmGet st key).map (·.1)
  if optDerefVal k0 live = key then
    match key, k0 with
    | .obj i, some r =>
        ({ st with map := aput st.map i (r, value) }, .ok ())
    | _, _ => (st, .error .typeError)
  else
    match key with
    | .obj i =>
        let r : WRef := ⟨st.nextRid, i⟩
        ({ st with
            regs := st.regs ++ [(i, r)],
            map := aput st.map i (r, value),
            set := setAdd st.set r,
            nextRid := st.nextRid + 1 }, .ok ())
    | _ => (st, .error .typeError)

/-- The shared `FinalizationRegistry` callback of `IterableWeakMap`
(lines 187-195), acting on the carried context `{ref, map, set}` of the
instance that armed it:
`if (ref?.deref?.()) { set.delete(ref); map.delete(ref.deref()!); }`. -/
def IterableWeakMap.finalize (st : MapState V) (live : List Nat)
    (ref : Option WRef) : MapState V :=
  match ref with
  | some r =>
    match r.deref live with
    | some t => { st with set := setDel st.set r, map := adel st.map t }
    | none => st
  | none => st

/-- `IterableWeakMap.prototype.entries` (lines 519-524): walk the registry,
dereference each handle, look the target up in the index, and yield the
live pairs.  The generator mutates nothing. -/
def IterableWeakMap.entriesList (st : MapState V) (live : List Nat) :
    List (Nat × V) :=
  st.set.filterMap (fun ref =>
    match ref.deref live with
    | some t => (aget st.map t).map (fun p => (t, p.2))
    | none => none)

/-- `IterableWeakMap.prototype[Symbol.iterator]` after the static
initializer (lines 559-562) assigned
`this.prototype[Symbol.iterator] = this.prototype.entries`. -/
def IterableWeakMap.iterList : MapState V → List Nat → List (Nat × V) :=
  IterableWeakMap.entriesList

/-- Sequential `this.set(k, v)` calls, stopping at the first thrown error
(the loop body of the constructor). -/
def IterableWeakMap.setMany (st : MapState V) (live : List Nat) :
    List (JSVal × V) → MapState V × Except JSError Unit
  | [] => (st, .ok ())
  | (k, v) :: rest =>
    match IterableWeakMap.set st live k v with
    | (st1, .ok _) => IterableWeakMap.setMany st1 live rest
    | (st1, .error e) => (st1, .error e)

/-- The constructor (lines 249-251):
`for (const [k, v] of entries ?? []) this.set(k, v)` starting from the
freshly initialized empty private fields.  `none` models passing `null` or
`undefined` (the `?? []` fallback). -/
def IterableWeakMap.ofEntries (live : List Nat) :
    Option (List (JSVal × V)) → MapState V × Except JSError Unit
  | none => (IterableWeakMap.emptyMap V, .ok ())
  | some l => IterableWeakMap.setMany (IterableWeakMap.emptyMap V) live l

/-! ## `IterableWeakSet` (src/packages/weak_set/mod.ts) -/

/-- The private state of an `IterableWeakSet<T>`:
`map` is `#map : WeakMap<T, {ref: WeakRef<T>}>`, `set` is
`#set : Set<WeakRef<T>>`, `regs` the armed registrations of the shared
`FinalizationRegistry` that belong to this instance, and `nextRid` the
allocator for fresh `WeakRef` identities. -/
structure SetState where
  map : List (Nat × WRef)
  set : List WRef
  regs : List (Nat × WRef)
  nextRid : Nat
deriving DecidableEq, Repr

/-- A freshly constructed, empty `IterableWeakSet`. -/
def IterableWeakSet.emptySet : SetState := ⟨[], [], [], 0⟩

/-- `this.#map.get(value)` for an arbitrary `JSVal`: `WeakMap.prototype.get`
returns `undefined` on a value that cannot be held weakly. -/
def IterableWeakSet.wmGet (st : SetState) (value : JSVal) : Option WRef :=
  match value with
  | .obj i => aget st.map i
  | _ => none

/-- One step of the sweep performed by the `size` getter (lines 64-71):
`for (const r of this.#set) { if (r.deref()) n++; else this.#set.delete(r); }`.
Deleting the element currently visited does not change which elements a JS
`Set` iteration still visits, so the loop's net effect is a left-to-right
pass returning the count of resolving handles and the surviving handles. -/
def sweepCount (live : List Nat) : List WRef → Nat × List WRef
  | [] => (0, [])
  | r :: rs =>
    if (r.deref live).isSome then
      let p := sweepCount live rs
      (p.1 + 1, r :: p.2)
    else sweepCount live rs

/-- The `size` getter of `IterableWeakSet` (lines 64-71): returns the count
of resolving handles and evicts the stale handles it encounters. -/
def IterableWeakSet.sizeRun (st : SetState) (live : List Nat) :
    Nat × SetState :=
  let p := sweepCount live st.set
  (p.1, { st with set := p.2 })

/-- `IterableWeakSet.prototype.has` (lines 165-167):
`return this.#map.get(value)?.ref?.deref?.() === value`. -/
def IterableWeakSet.has (st : SetState) (live : List Nat) (value : JSVal) :
    Bool :=
  decide (optDerefVal (IterableWeakSet.wmGet st value) live = value)

/-- `IterableWeakSet.prototype.add` (lines 87-99).  For a value that cannot
be held weakly, `#map.get` reports "not found", the stale-entry branch is
skipped, and `ref ??= new WeakRef(value)` throws a `TypeError` before any
mutation.  For an object value: if a stored handle exists but no longer
dereferences to the value, the old registration, registry entry and index
entry are removed first; note `ref ??=` then keeps the old (still truthy)
handle instead of allocating a fresh one.  Finally the index entry and
registry entry are (re)installed and a new registration is armed. -/
def IterableWeakSet.add (st : SetState) (live : List Nat) (value : JSVal) :
    SetState × Except JSError Unit :=
  match value with
  | .obj i =>
    let ref0 := aget st.map i
    let st1 :=
      match ref0 with
      | some r =>
        if optDerefVal (some r) live ≠ .obj i then
          { st with regs := adel st.regs i, set := setDel st.set r,
                    map := adel st.map i }
        else st
      | none => st
    let r :=
      match ref0 with
      | some r => r
      | none => (⟨st.nextRid, i⟩ : WRef)
    let rid' :=
      match ref0 with
      | some _ => st.nextRid
      | none => st.nextRid + 1
    ({ map := aput st1.map i r, set := setAdd st1.set r,
       regs := st1.regs ++ [(i, r)], nextRid := rid' }, .ok ())
  | _ => (st, .error .typeError)

/-- `IterableWeakSet.prototype.delete` (lines 136-147).  The method never
dereferences the handle, so `live` plays no role; the guarded branch is
reachable only for object values (the index holds no other keys), and the
result is whatever `this.#set.delete(ref)` reports. -/
def IterableWeakSet.delete (st : SetState) (value : JSVal) :
    SetState × Except JSError Bool :=
  match IterableWeakSet.wmGet st value with
  | some r =>
    match value with
    | .obj i =>
        ({ st with regs := adel st.regs i, map := adel st.map i,
                   set := setDel st.set r }, .ok (decide (r ∈ st.set)))
    | _ => (st, .error .typeError)
  | none => (st, .ok false)

/-- The shared `FinalizationRegistry` callback of `IterableWeakSet`
(lines 29-40), acting on the carried context `{map, ref, set}`:
`if (ref?.deref()) { set.delete(ref); map.delete(ref.deref()!);
IterableWeakSet.#registry.unregister(ref.deref()!); }`. -/
def IterableWeakSet.finalize (st : SetState) (live : List Nat)
    (ref : Option WRef) : SetState :=
  match ref with
  | some r =>
    match r.deref live with
    | some t =>
        { st with set := setDel st.set r, map := adel st.map t,
                  regs := adel st.regs t }
    | none => st
  | none => st

/-- One step of the sweep performed by `values()` (lines 538-547):
`for (const r of this.#set) { const value = r.deref(); if (value) yield
value; else this.#set.delete(r); }` — yields the resolving targets in
registry order and evicts the stale handles. -/
def sweepYield (live : List Nat) : List WRef → List Nat × List WRef
  | [] => ([], [])
  | r :: rs =>
    match r.deref live with
    | some t =>
      let p := sweepYield live rs
      (t :: p.1, r :: p.2)
    | none => sweepYield live rs

/-- `IterableWeakSet.prototype.values` (lines 538-547): the yielded object
ids together with the post-iteration instance state. -/
def IterableWeakSet.valuesRun (st : SetState) (live : List Nat) :
    List Nat × SetState :=
  let p := sweepYield live st.set
  (p.1, { st with set := p.2 })

/-- `IterableWeakSet.prototype.keys` after the static initializer
(lines 605-608) assigned `this.prototype.keys = this.prototype.values`. -/
def IterableWeakSet.keysRun : SetState → List Nat → List Nat × SetState :=
  IterableWeakSet.valuesRun

/-- `IterableWeakSet.prototype[Symbol.iterator]` after the static
initializer assigned
`this.prototype[Symbol.iterator] = this.prototype.values`. -/
def IterableWeakSet.iterRun : SetState → List Nat → List Nat × SetState :=
  IterableWeakSet.valuesRun

/-- Sequential `this.add(v)` calls, stopping at the first thrown error
(the loop body of the constructor). -/
def IterableWeakSet.addMany (st : SetState) (live : List Nat) :
    List JSVal → SetState × Except JSError Unit
  | [] => (st, .ok ())
  | v :: rest =>
    match IterableWeakSet.add st live v with
    | (st1, .ok _) => IterableWeakSet.addMany st1 live rest
    | (st1, .error e) => (st1, .error e)

/-- The constructor (lines 59-61):
`for (const v of values ?? []) this.add(v)` starting from the freshly
initialized empty private fields.  `none` models passing `null` or
`undefined` (the `?? []` fallback). -/
def IterableWeakSet.ofValues (live : List Nat) :
    Option (List JSVal) → SetState × Except JSError Unit
  | none => (IterableWeakSet.emptySet, .ok ())
  | some l => IterableWeakSet.addMany IterableWeakSet.emptySet live l

/-- `IterableWeakSet.prototype.difference` (lines 295-304): sweep
`this.keys()` (an alias of `values`, so stale handles of `this` are evicted
as a side effect of the walk), add each yielded value not in `other` to a
fresh `IterableWeakSet`, and return it.  The pair holds the new container
and the post-iteration state of `this`;  `other` is only consulted through
`has`. -/
def IterableWeakSet.differenceRun (A B : SetState) (live : List Nat) :
    SetState × SetState :=
  let pA := IterableWeakSet.valuesRun A live
  (pA.1.foldl (fun acc t =>
      if IterableWeakSet.has B live (.obj t) then acc
      else (IterableWeakSet.add acc live (.obj t)).1)
    IterableWeakSet.emptySet,
   pA.2)

/-- `IterableWeakSet.prototype.symmetricDifference` (lines 339-352): the
first loop sweeps `this.keys()` and adds the yielded values absent from
`other`; the second loop sweeps `other.keys()` and adds the yielded values
absent from `this` (whose state is by then the post-sweep state of the
first loop).  The triple holds the new container and the post-iteration
states of `this` and `other`. -/
def IterableWeakSet.symmetricDifferenceRun (A B : SetState)
    (live : List Nat) : SetState × SetState × SetState :=
  let pA := IterableWeakSet.valuesRun A live
  let s1 := pA.1.foldl (fun acc t =>
      if IterableWeakSet.has B live (.obj t) then acc
      else (IterableWeakSet.add acc live (.obj t)).1)
    IterableWeakSet.emptySet
  let pB := IterableWeakSet.valuesRun B live
  let s2 := pB.1.foldl (fun acc t =>
      if IterableWeakSet.has pA.2 live (.obj t) then acc
      else (IterableWeakSet.add acc live (.obj t)).1)
    s1
  (s2, pA.2, pB.2)

/-! ## Derived definitions, invariants, and concrete states used below -/

/-- Repeated `add` of object values into a set container (the accumulator
pattern used by the set-algebra methods when they populate their fresh
result container). -/
def foldAdd (st : SetState) (live : List Nat) (l : List Nat) : SetState :=
  l.foldl (fun acc t => (IterableWeakSet.add acc live (.obj t)).1) st

/-- Index sanity for a set container: every stored handle targets the key
it is stored under (true of every reachable state, since `add` creates the
handle from the value it indexes). -/
def TargetsOk (st : SetState) : Prop :=
  ∀ p ∈ st.map, p.2.target = p.1

/-- The documented cross-structure invariant of `IterableWeakSet`
(spec §3), specialised to a heap where every member is live: every registry
handle resolves and is the indexed handle of its target, and every index
entry targets its own key, is live, and has its handle in the registry. -/
def WFset (st : SetState) (live : List Nat) : Prop :=
  (∀ r ∈ st.set, r.target ∈ live ∧ aget st.map r.target = some r) ∧
  (∀ p ∈ st.map, p.2.target = p.1 ∧ p.1 ∈ live ∧ p.2 ∈ st.set)

/-- The conclusion of claim C8: `A.difference(B)` and `B.difference(A)`
have disjoint membership, their membership union is exactly the membership
of `A.symmetricDifference(B)`, and none of the three calls mutates an
operand. -/
def C8Concl (A B : SetState) (live : List Nat) : Prop :=
  (∀ t : Nat,
    ¬(IterableWeakSet.has (IterableWeakSet.differenceRun A B live).1 live
        (.obj t) = true ∧
      IterableWeakSet.has (IterableWeakSet.differenceRun B A live).1 live
        (.obj t) = true)) ∧
  (∀ t : Nat,
    (IterableWeakSet.has (IterableWeakSet.differenceRun A B live).1 live
        (.obj t) = true ∨
     IterableWeakSet.has (IterableWeakSet.differenceRun B A live).1 live
        (.obj t) = true) ↔
    IterableWeakSet.has
      (IterableWeakSet.symmetricDifferenceRun A B live).1 live
      (.obj t) = true) ∧
  (IterableWeakSet.differenceRun A B live).2 = A ∧
  (IterableWeakSet.differenceRun B A live).2 = B ∧
  (IterableWeakSet.symmetricDifferenceRun A B live).2.1 = A ∧
  (IterableWeakSet.symmetricDifferenceRun A B live).2.2 = B

/-- Context of a map finalization callback firing for reclaimed object 5:
the stale handle is still in the registry, the `WeakMap` index has already
dropped its entry (the key was reclaimed), the registration was armed. -/
def c1MapDead : MapState Unit := ⟨[], [⟨0, 5⟩], [(5, ⟨0, 5⟩)], 1⟩

/-- A map state in which the handle carried by a (stale or reused)
finalization context still resolves: object 5 is live and indexed. -/
def c1MapLive : MapState Unit := ⟨[(5, ⟨0, 5⟩, ())], [⟨0, 5⟩], [(5, ⟨0, 5⟩)], 1⟩

/-- Set counterpart of `c1MapDead`. -/
def c1SetDead : SetState := ⟨[], [⟨0, 5⟩], [(5, ⟨0, 5⟩)], 1⟩

/-- Set counterpart of `c1MapLive`. -/
def c1SetLive : SetState := ⟨[(5, ⟨0, 5⟩)], [⟨0, 5⟩], [(5, ⟨0, 5⟩)], 1⟩

/-- A map whose registry holds one stale handle (object 5 reclaimed, entry
already dropped from the `WeakMap` index, registration still armed). -/
def c2MapStale : MapState Unit := ⟨[], [⟨0, 5⟩], [(5, ⟨0, 5⟩)], 1⟩

/-- A one-entry map (object 1 ↦ payload 10) used to instantiate C6. -/
def c6MapSt : MapState Nat := ⟨[(1, ⟨0, 1⟩, 10)], [⟨0, 1⟩], [(1, ⟨0, 1⟩)], 1⟩

/-- A one-entry map (object 1 ↦ payload 10) used to instantiate C7. -/
def c7MapSt : MapState Nat := ⟨[(1, ⟨0, 1⟩, 10)], [⟨0, 1⟩], [(1, ⟨0, 1⟩)], 1⟩

/-- A one-member set (object 1) used to instantiate C7. -/
def c7SetSt : SetState := ⟨[(1, ⟨0, 1⟩)], [⟨0, 1⟩], [(1, ⟨0, 1⟩)], 1⟩

/-- A two-member set (objects 1 and 2) used to instantiate C8 as `A`. -/
def c8SetA : SetState := ⟨[(1, ⟨0, 1⟩), (2, ⟨1, 2⟩)], [⟨0, 1⟩, ⟨1, 2⟩],
  [(1, ⟨0, 1⟩), (2, ⟨1, 2⟩)], 2⟩

/-- A two-member set (objects 2 and 3) used to instantiate C8 as `B`. -/
def c8SetB : SetState := ⟨[(2, ⟨0, 2⟩), (3, ⟨1, 3⟩)], [⟨0, 2⟩, ⟨1, 3⟩],
  [(2, ⟨0, 2⟩), (3, ⟨1, 3⟩)], 2⟩

/-! ## Basic lemmas about the store primitives -/

theorem aget_nil (i : Nat) : aget ([] : List (Nat × α)) i = none := rfl

theorem aget_cons (p : Nat × α) (m : List (Nat × α)) (i : Nat) :
    aget (p :: m) i = if p.1 = i then some p.2 else aget m i := by
  by_cases h : p.1 = i <;> simp [aget, List.find?, h]

theorem aget_mem {m : List (Nat × α)} {i : Nat} {a : α}
    (h : aget m i = some a) : (i, a) ∈ m := by
  induction m with
  | nil => simp [aget] at h
  | cons p m ih =>
    rw [aget_cons] at h
    by_cases hp : p.1 = i
    · simp only [hp, if_true, Option.some.injEq] at h
      subst h
      have hpp : p = (i, p.2) := by rw [← hp]
      rw [hpp]
      exact List.mem_cons_self _ _
    · simp only [hp, if_false] at h
      exact List.mem_cons_of_mem _ (ih h)

theorem aget_adel_same (m : List (Nat × α)) (i : Nat) :
    aget (adel m i) i = none := by
  induction m with
  | nil => rfl
  | cons p m ih =>
    by_cases hp : p.1 = i
    · simpa [adel, List.filter_cons, hp] using ih
    · simp only [adel, decide_not, List.filter_cons] at ih ⊢
      simp [hp, aget_cons, ih]

theorem aget_adel_ne (m : List (Nat × α)) (i j : Nat) (h : j ≠ i) :
    aget (adel m i) j = aget m j := by
  induction m with
  | nil => rfl
  | cons p m ih =>
    by_cases hp : p.1 = i
    · have hpj : p.1 ≠ j := by rw [hp]; exact fun hh => h hh.symm
      simp only [adel, decide_not, List.filter_cons] at ih ⊢
      simp [hp, aget_cons, hpj, ih, Ne.symm h]
    · simp only [adel, decide_not, List.filter_cons] at ih ⊢
      simp [hp, aget_cons, ih]

theorem aget_aput_same (m : List (Nat × α)) (i : Nat) (a : α) :
    aget (aput m i a) i = some a := by
  simp [aput, aget_cons]

theorem aget_aput_ne (m : List (Nat × α)) (i j : Nat) (a : α) (h : j ≠ i) :
    aget (aput m i a) j = aget m j := by
  have hij : i ≠ j := fun hh => h hh.symm
  rw [aput, aget_cons]
  simp only [hij, if_false]
  exact aget_adel_ne m i j h

theorem mem_aput {m : List (Nat × α)} {i : Nat} {a : α} {p : Nat × α}
    (h : p ∈ aput m i a) : p = (i, a) ∨ p ∈ m := by
  simp only [aput, List.mem_cons, List.mem_filter] at h
  rcases h with h | h
  · exact Or.inl h
  · exact Or.inr h.1

/-! ## Basic lemmas about the registry sweeps -/

theorem sweepCount_eq (live : List Nat) (l : List WRef) :
    sweepCount live l =
      (l.countP (fun r => (r.deref live).isSome),
       l.filter (fun r => (r.deref live).isSome)) := by
  induction l with
  | nil => rfl
  | cons r rs ih =>
    by_cases h : (r.deref live).isSome
    · simp [sweepCount, h, ih, List.countP_cons, List.filter_cons,
        Nat.add_comm]
    · simp [sweepCount, h, ih, List.countP_cons, List.filter_cons]

theorem sweepYield_all_live {live : List Nat} {l : List WRef}
    (h : ∀ r ∈ l, r.target ∈ live) :
    sweepYield live l = (l.map (·.target), l) := by
  induction l with
  | nil => rfl
  | cons r rs ih =>
    have hr : r.deref live = some r.target := by
      simp [WRef.deref, h r (List.mem_cons_self r rs)]
    have ih2 := ih (fun x hx => h x (List.mem_cons_of_mem r hx))
    simp [sweepYield, hr, ih2]

theorem foldl_count_eq (live : List Nat) (l : List WRef) (n : Nat) :
    l.foldl (fun n r => if (r.deref live).isSome then n + 1 else n) n =
      n + l.countP (fun r => (r.deref live).isSome) := by
  induction l generalizing n with
  | nil => simp
  | cons r rs ih =>
    by_cases h : (r.deref live).isSome
    · simp [List.foldl_cons, h, ih, List.countP_cons, Nat.add_assoc,
        Nat.add_comm 1]
    · simp [List.foldl_cons, h, ih, List.countP_cons]

/-! ## Small facts about `WRef.deref` and `optDerefVal` -/

theorem deref_live {r : WRef} {live : List Nat} (h : r.target ∈ live) :
    r.deref live = some r.target := by
  simp [WRef.deref, h]

theorem deref_some {r : WRef} {live : List Nat} {t : Nat}
    (h : r.deref live = some t) : r.target = t ∧ t ∈ live := by
  unfold WRef.deref at h
  by_cases hm : r.target ∈ live
  · simp only [hm, if_true, Option.some.injEq] at h
    exact ⟨h, h ▸ hm⟩
  · simp [hm] at h

theorem optDerefVal_obj {k : Option WRef} {live : List Nat} {i : Nat}
    (h : optDerefVal k live = .obj i) :
    ∃ r, k = some r ∧ r.deref live = some i ∧ r.target = i ∧ i ∈ live := by
  cases k with
  | none => simp [optDerefVal] at h
  | some r =>
    cases hd : r.deref live with
    | none => simp [optDerefVal, hd] at h
    | some t =>
      simp only [optDerefVal, hd, JSVal.obj.injEq] at h
      subst h
      obtain ⟨h1, h2⟩ := deref_some hd
      exact ⟨r, rfl, hd, h1, h2⟩

theorem optDerefVal_of_deref {r : WRef} {live : List Nat} {i : Nat}
    (h : r.deref live = some i) : optDerefVal (some r) live = .obj i := by
  simp [optDerefVal, h]

/-! ## Claim theorems -/

/-- Claim C1 (code_bug evaluation).  The claim: when the shared
finalization callback fires with context `{ref, map, set}` and `ref` no
longer resolves, the callback removes `ref` from the registry and the
corresponding entry from the index; when `ref` still resolves it is a
no-op.  The code's guard is `if (ref?.deref())`, the exact inverse: at the
reclaimed-object input (`c1MapDead`/`c1SetDead`, object 5 dead, the stale
handle still registered) the callback changes nothing, while at a context
whose handle still resolves (`c1MapLive`/`c1SetLive`) it deletes the live
entry. -/
theorem c1_code_eval :
    (WRef.deref ⟨0, 5⟩ [] = none ∧ ⟨0, 5⟩ ∈ c1MapDead.set ∧
      IterableWeakMap.finalize c1MapDead [] (some ⟨0, 5⟩) = c1MapDead) ∧
    (WRef.deref ⟨0, 5⟩ [5] = some 5 ∧
      IterableWeakMap.finalize c1MapLive [5] (some ⟨0, 5⟩) =
        ⟨[], [], [(5, ⟨0, 5⟩)], 1⟩) ∧
    (⟨0, 5⟩ ∈ c1SetDead.set ∧
      IterableWeakSet.finalize c1SetDead [] (some ⟨0, 5⟩) = c1SetDead) ∧
    IterableWeakSet.finalize c1SetLive [5] (some ⟨0, 5⟩) = ⟨[], [], [], 1⟩ := by
  decide

/-- Claim C2 (counterexample).  The claim asserts that reading `size` on a
map evicts every stale handle it encounters.  On `c2MapStale` (one stale
handle) the getter returns the correct count 0, but the instance state
after the read still holds the non-resolving handle: the map's `size`
getter performs no eviction. -/
theorem c2_counterexample :
    (IterableWeakMap.sizeRun c2MapStale []).1 = 0 ∧
    ¬(∀ r ∈ (IterableWeakMap.sizeRun c2MapStale []).2.set,
        (WRef.deref r []).isSome = true) := by
  decide

/-- Claim C2 (amended): for both containers `size` returns the count of
handles in the registry whose `WeakRef` currently resolves; the
`IterableWeakSet` getter additionally evicts the stale handles it
encounters, while the `IterableWeakMap` getter leaves the instance state —
in particular the registry — unchanged. -/
theorem c2_amended (V : Type) (st : MapState V) (stS : SetState)
    (live : List Nat) :
    IterableWeakMap.sizeRun st live =
      (st.set.countP (fun r => (r.deref live).isSome), st) ∧
    IterableWeakSet.sizeRun stS live =
      (stS.set.countP (fun r => (r.deref live).isSome),
       { stS with set := stS.set.filter (fun r => (r.deref live).isSome) }) := by
  constructor
  · simp [IterableWeakMap.sizeRun, foldl_count_eq]
  · simp [IterableWeakSet.sizeRun, sweepCount_eq]

/-- Claim C3: for every value that is not weakly referenceable (string,
number, boolean, `null`, `undefined`), `IterableWeakMap.set` and
`IterableWeakSet.add` throw a `TypeError` synchronously and return the
container state completely unchanged. -/
theorem c3_invalid_key (V : Type) (st : MapState V) (stS : SetState)
    (live : List Nat) (key : JSVal) (v : V)
    (h : canBeHeldWeakly key = false) :
    IterableWeakMap.set st live key v = (st, .error .typeError) ∧
    IterableWeakSet.add stS live key = (stS, .error .typeError) := by
  cases key
  case obj i => exact absurd h (by simp [canBeHeldWeakly])
  all_goals exact ⟨rfl, rfl⟩

/-- Witness for C3 at the spec's own example input, a string key. -/
theorem c3_witness :
    IterableWeakMap.set (IterableWeakMap.emptyMap Nat) []
      (.str "a string key") 7 =
      (IterableWeakMap.emptyMap Nat, .error .typeError) ∧
    IterableWeakSet.add IterableWeakSet.emptySet [] (.str "a string key") =
      (IterableWeakSet.emptySet, .error .typeError) :=
  c3_invalid_key Nat (IterableWeakMap.emptyMap Nat) IterableWeakSet.emptySet
    [] (.str "a string key") 7 rfl

/-- Claim C4 (code_bug evaluation).  The claim: `get`/`has`/`delete` never
throw and report "not found" on invalid input.  That holds for `null`,
strings, numbers and booleans, but at the failing input `undefined` the
guard `k?.deref() === key` evaluates to `undefined === undefined`: for
every container state, `IterableWeakMap.has`/`IterableWeakSet.has` return
`true` for `undefined`, and `IterableWeakMap.delete` reaches
`FinalizationRegistry.unregister(undefined)`, which throws a `TypeError`
(`get` does return `undefined`, and the set's `delete` returns `false`,
as claimed). -/
theorem c4_code_eval (V : Type) (st : MapState V) (stS : SetState)
    (live : List Nat) :
    IterableWeakMap.get st live .undefined = none ∧
    IterableWeakMap.has st live .undefined = true ∧
    IterableWeakMap.delete st live .undefined = (st, .error .typeError) ∧
    IterableWeakSet.has stS live .undefined = true ∧
    IterableWeakSet.delete stS .undefined = (stS, .ok false) :=
  ⟨rfl, rfl, rfl, rfl, rfl⟩

/-- Claim C9: after the static initializers, default iteration is the very
same operation as `entries` on the map, and default iteration and `keys`
are the very same operation as `values` on the set, so for any container
state they produce identical sequences (same elements, same registry
order) and identical post-iteration states. -/
theorem c9_iteration_aliases :
    (∀ (V : Type) (st : MapState V) (live : List Nat),
      IterableWeakMap.iterList st live = IterableWeakMap.entriesList st live) ∧
    (∀ (st : SetState) (live : List Nat),
      IterableWeakSet.iterRun st live = IterableWeakSet.valuesRun st live ∧
      IterableWeakSet.keysRun st live = IterableWeakSet.valuesRun st live) :=
  ⟨fun _ _ _ => rfl, fun _ _ => ⟨rfl, rfl⟩⟩

/-- Claim C10: constructing from an iterable of initial entries/values is
the same computation as constructing empty and then calling `set`/`add`
once per element in iteration order, and passing `null`/`undefined`
(modelled by `none`) yields an empty container without throwing. -/
theorem c10_constructor_equiv :
    (∀ (V : Type) (live : List Nat) (l : List (JSVal × V)),
      IterableWeakMap.ofEntries live (some l) =
        IterableWeakMap.setMany (IterableWeakMap.emptyMap V) live l) ∧
    (∀ (V : Type) (live : List Nat),
      IterableWeakMap.ofEntries (V := V) live none =
        (IterableWeakMap.emptyMap V, .ok ())) ∧
    (∀ (live : List Nat) (l : List JSVal),
      IterableWeakSet.ofValues live (some l) =
        IterableWeakSet.addMany IterableWeakSet.emptySet live l) ∧
    (∀ live : List Nat,
      IterableWeakSet.ofValues live none = (IterableWeakSet.emptySet, .ok ())) :=
  ⟨fun _ _ _ => rfl, fun _ _ => rfl, fun _ _ => rfl, fun _ => rfl⟩

/-! ## Characterization of `set`/`add` on live object keys -/

theorem mapSet_lookup (V : Type) (st : MapState V) (live : List Nat) (i : Nat)
    (v : V) (hi : i ∈ live) :
    (IterableWeakMap.set st live (.obj i) v).2 = .ok () ∧
    ∃ r : WRef,
      aget (IterableWeakMap.set st live (.obj i) v).1.map i = some (r, v) ∧
      r.deref live = some i := by
  by_cases h :
      optDerefVal ((IterableWeakMap.wmGet st (.obj i)).map (·.1)) live = .obj i
  · obtain ⟨r, hk, hd, -, -⟩ := optDerefVal_obj h
    have hset : IterableWeakMap.set st live (.obj i) v =
        ({ st with map := aput st.map i (r, v) }, .ok ()) := by
      simp [IterableWeakMap.set, hk, h, optDerefVal_of_deref hd]
    rw [hset]
    exact ⟨rfl, r, aget_aput_same _ _ _, hd⟩
  · have hset : IterableWeakMap.set st live (.obj i) v =
        ({ st with
            regs := st.regs ++ [(i, ⟨st.nextRid, i⟩)],
            map := aput st.map i (⟨st.nextRid, i⟩, v),
            set := setAdd st.set ⟨st.nextRid, i⟩,
            nextRid := st.nextRid + 1 }, .ok ()) := by
      simp [IterableWeakMap.set, h]
    rw [hset]
    exact ⟨rfl, ⟨st.nextRid, i⟩, aget_aput_same _ _ _, deref_live hi⟩

theorem add_has (stS : SetState) (live : List Nat) (t : Nat) (ht : t ∈ live)
    (hT : TargetsOk stS) :
    TargetsOk (IterableWeakSet.add stS live (.obj t)).1 ∧
    ∀ j : Nat,
      (IterableWeakSet.has (IterableWeakSet.add stS live (.obj t)).1 live
          (.obj j) = true ↔
       (j = t ∨ IterableWeakSet.has stS live (.obj j) = true)) := by
  have hstate : ∃ (r : WRef) (n : Nat), r.target = t ∧
      (IterableWeakSet.add stS live (.obj t)).1 =
        ⟨aput stS.map t r, setAdd stS.set r, stS.regs ++ [(t, r)], n⟩ := by
    cases href : aget stS.map t with
    | some r =>
      have htgt : r.target = t := hT (t, r) (aget_mem href)
      have hd : r.deref live = some t := by
        have hm : r.target ∈ live := by rw [htgt]; exact ht
        rw [deref_live hm, htgt]
      refine ⟨r, stS.nextRid, htgt, ?_⟩
      simp [IterableWeakSet.add, href, optDerefVal_of_deref hd]
    | none =>
      refine ⟨⟨stS.nextRid, t⟩, stS.nextRid + 1, rfl, ?_⟩
      simp [IterableWeakSet.add, href]
  obtain ⟨r, n, htgt, hst⟩ := hstate
  have hd : r.deref live = some t := by
    have hm : r.target ∈ live := by rw [htgt]; exact ht
    rw [deref_live hm, htgt]
  constructor
  · intro p hp
    rw [hst] at hp
    rcases mem_aput hp with hp | hp
    · rw [hp]; exact htgt
    · exact hT p hp
  · intro j
    rw [hst]
    by_cases hj : j = t
    · subst hj
      simp [IterableWeakSet.has, IterableWeakSet.wmGet, aget_aput_same,
        optDerefVal_of_deref hd]
    · have : aget (aput stS.map t r) j = aget stS.map j :=
        aget_aput_ne _ _ _ _ hj
      simp [IterableWeakSet.has, IterableWeakSet.wmGet, this, hj]

/-- Claim C5: for a valid, still-live key object `k` (and, for the set, a
container whose index entries target their own keys, as every reachable
state does), immediately after `set(k, v)` / `add(k)` the call succeeded,
`has(k)` is true, and `get(k)` returns exactly `v`. -/
theorem c5_presence_after_insert (V : Type) (st : MapState V)
    (stS : SetState) (live : List Nat) (i : Nat) (v : V)
    (hi : i ∈ live) (hT : TargetsOk stS) :
    ((IterableWeakMap.set st live (.obj i) v).2 = .ok () ∧
     IterableWeakMap.has (IterableWeakMap.set st live (.obj i) v).1 live
       (.obj i) = true ∧
     IterableWeakMap.get (IterableWeakMap.set st live (.obj i) v).1 live
       (.obj i) = some v) ∧
    ((IterableWeakSet.add stS live (.obj i)).2 = .ok () ∧
     IterableWeakSet.has (IterableWeakSet.add stS live (.obj i)).1 live
       (.obj i) = true) := by
  obtain ⟨hok, r, hag, hd⟩ := mapSet_lookup V st live i v hi
  refine ⟨⟨hok, ?_, ?_⟩, rfl, ?_⟩
  · simp [IterableWeakMap.has, IterableWeakMap.wmGet, hag,
      optDerefVal_of_deref hd]
  · simp [IterableWeakMap.get, IterableWeakMap.wmGet, hag,
      optDerefVal_of_deref hd]
  · exact ((add_has stS live i hi hT).2 i).mpr (Or.inl rfl)

/-- Witness for C5: inserting object 1 (live) into empty containers. -/
theorem c5_witness :
    ((IterableWeakMap.set (IterableWeakMap.emptyMap Nat) [1] (.obj 1) 42).2 =
        .ok () ∧
     IterableWeakMap.has
       (IterableWeakMap.set (IterableWeakMap.emptyMap Nat) [1] (.obj 1) 42).1
       [1] (.obj 1) = true ∧
     IterableWeakMap.get
       (IterableWeakMap.set (IterableWeakMap.emptyMap Nat) [1] (.obj 1) 42).1
       [1] (.obj 1) = some 42) ∧
    ((IterableWeakSet.add IterableWeakSet.emptySet [1] (.obj 1)).2 = .ok () ∧
     IterableWeakSet.has
       (IterableWeakSet.add IterableWeakSet.emptySet [1] (.obj 1)).1
       [1] (.obj 1) = true) :=
  c5_presence_after_insert Nat (IterableWeakMap.emptyMap Nat)
    IterableWeakSet.emptySet [1] 1 42 (by decide)
    (by unfold TargetsOk; decide)

/-- Claim C6: overwriting a still-indexed live key replaces only the
payload — both calls succeed, the registry, the registrations and hence
`size` are unchanged, `get` returns the new payload, and the stored weak
handle after both writes is the identical handle `r` that was stored
before. -/
theorem c6_overwrite (V : Type) (st : MapState V) (live : List Nat)
    (i : Nat) (r : WRef) (v0 v1 v2 : V)
    (h : aget st.map i = some (r, v0)) (hr : r.deref live = some i) :
    (IterableWeakMap.set st live (.obj i) v1).2 = .ok () ∧
    (IterableWeakMap.set (IterableWeakMap.set st live (.obj i) v1).1 live
        (.obj i) v2).2 = .ok () ∧
    (IterableWeakMap.set (IterableWeakMap.set st live (.obj i) v1).1 live
        (.obj i) v2).1.set = st.set ∧
    (IterableWeakMap.set (IterableWeakMap.set st live (.obj i) v1).1 live
        (.obj i) v2).1.regs = st.regs ∧
    (IterableWeakMap.sizeRun
        (IterableWeakMap.set (IterableWeakMap.set st live (.obj i) v1).1 live
          (.obj i) v2).1 live).1 =
      (IterableWeakMap.sizeRun st live).1 ∧
    IterableWeakMap.get
        (IterableWeakMap.set (IterableWeakMap.set st live (.obj i) v1).1 live
          (.obj i) v2).1 live (.obj i) = some v2 ∧
    aget (IterableWeakMap.set (IterableWeakMap.set st live (.obj i) v1).1 live
        (.obj i) v2).1.map i = some (r, v2) := by
  have hk : (IterableWeakMap.wmGet st (.obj i)).map (·.1) = some r := by
    simp [IterableWeakMap.wmGet, h]
  have hcond := optDerefVal_of_deref hr
  have hset1 : IterableWeakMap.set st live (.obj i) v1 =
      ({ st with map := aput st.map i (r, v1) }, .ok ()) := by
    simp [IterableWeakMap.set, hk, hcond]
  have hag1 : aget (aput st.map i (r, v1)) i = some (r, v1) :=
    aget_aput_same _ _ _
  have hk2 : (IterableWeakMap.wmGet
      ({ st with map := aput st.map i (r, v1) } : MapState V)
      (.obj i)).map (·.1) = some r := by
    simp [IterableWeakMap.wmGet, hag1]
  have hset2 : IterableWeakMap.set
      ({ st with map := aput st.map i (r, v1) } : MapState V) live
      (.obj i) v2 =
      ({ st with map := aput (aput st.map i (r, v1)) i (r, v2) }, .ok ()) := by
    simp [IterableWeakMap.set, hk2, hcond]
  have hag2 : aget (aput (aput st.map i (r, v1)) i (r, v2)) i =
      some (r, v2) := aget_aput_same _ _ _
  have hfst1 : (IterableWeakMap.set st live (.obj i) v1).1 =
      ({ st with map := aput st.map i (r, v1) } : MapState V) := by
    rw [hset1]
  refine ⟨by rw [hset1], ?_, ?_, ?_, ?_, ?_, ?_⟩
  · rw [hfst1, hset2]
  · rw [hfst1, hset2]
  · rw [hfst1, hset2]
  · rw [hfst1, hset2]
    rfl
  · rw [hfst1, hset2]
    simp [IterableWeakMap.get, IterableWeakMap.wmGet, hag2, hcond]
  · rw [hfst1, hset2]
    exact hag2

/-- Witness for C6: overwriting the payload of object 1 in `c6MapSt`. -/
theorem c6_witness :
    (IterableWeakMap.set c6MapSt [1] (.obj 1) 11).2 = .ok () ∧
    (IterableWeakMap.set (IterableWeakMap.set c6MapSt [1] (.obj 1) 11).1 [1]
        (.obj 1) 12).2 = .ok () ∧
    (IterableWeakMap.set (IterableWeakMap.set c6MapSt [1] (.obj 1) 11).1 [1]
        (.obj 1) 12).1.set = c6MapSt.set ∧
    (IterableWeakMap.set (IterableWeakMap.set c6MapSt [1] (.obj 1) 11).1 [1]
        (.obj 1) 12).1.regs = c6MapSt.regs ∧
    (IterableWeakMap.sizeRun
        (IterableWeakMap.set (IterableWeakMap.set c6MapSt [1] (.obj 1) 11).1
          [1] (.obj 1) 12).1 [1]).1 =
      (IterableWeakMap.sizeRun c6MapSt [1]).1 ∧
    IterableWeakMap.get
        (IterableWeakMap.set (IterableWeakMap.set c6MapSt [1] (.obj 1) 11).1
          [1] (.obj 1) 12).1 [1] (.obj 1) = some 12 ∧
    aget (IterableWeakMap.set (IterableWeakMap.set c6MapSt [1] (.obj 1) 11).1
        [1] (.obj 1) 12).1.map 1 = some (⟨0, 1⟩, 12) :=
  c6_overwrite Nat c6MapSt [1] 1 ⟨0, 1⟩ 10 11 12 (by decide) (by decide)

/-- Claim C7: for a valid, still-live key object `k` (and, for the set, the
index/registry coherence that every reachable state has), `delete(k)` on a
container where `k` is absent returns `false` and leaves the state — hence
`size` — unchanged; `delete(k)` on a container where `k` is present
returns `true`, removes the entry, and a repeated `delete(k)` on the
resulting state returns `false` and changes nothing. -/
theorem c7_idempotent_delete (V : Type) (st : MapState V) (stS : SetState)
    (live : List Nat) (i : Nat) (hi : i ∈ live)
    (hS : ∀ p ∈ stS.map, p.2.target = p.1 ∧ p.2 ∈ stS.set) :
    (IterableWeakMap.has st live (.obj i) = false →
      IterableWeakMap.delete st live (.obj i) = (st, .ok false)) ∧
    (IterableWeakMap.has st live (.obj i) = true →
      (IterableWeakMap.delete st live (.obj i)).2 = .ok true ∧
      IterableWeakMap.has (IterableWeakMap.delete st live (.obj i)).1 live
        (.obj i) = false ∧
      IterableWeakMap.delete (IterableWeakMap.delete st live (.obj i)).1 live
        (.obj i) =
        ((IterableWeakMap.delete st live (.obj i)).1, .ok false)) ∧
    (IterableWeakSet.has stS live (.obj i) = false →
      IterableWeakSet.delete stS (.obj i) = (stS, .ok false)) ∧
    (IterableWeakSet.has stS live (.obj i) = true →
      (IterableWeakSet.delete stS (.obj i)).2 = .ok true ∧
      IterableWeakSet.has (IterableWeakSet.delete stS (.obj i)).1 live
        (.obj i) = false ∧
      IterableWeakSet.delete (IterableWeakSet.delete stS (.obj i)).1
        (.obj i) =
        ((IterableWeakSet.delete stS (.obj i)).1, .ok false)) := by
  refine ⟨?_, ?_, ?_, ?_⟩
  · intro habs
    have hcond :
        ¬(optDerefVal ((IterableWeakMap.wmGet st (.obj i)).map (·.1)) live =
          .obj i) := by
      simpa [IterableWeakMap.has] using habs
    simp [IterableWeakMap.delete, hcond]
  · intro hpres
    have hcond :
        optDerefVal ((IterableWeakMap.wmGet st (.obj i)).map (·.1)) live =
          .obj i := by
      simpa [IterableWeakMap.has] using hpres
    obtain ⟨r, hk, hd, -, -⟩ := optDerefVal_obj hcond
    have hdel : IterableWeakMap.delete st live (.obj i) =
        ({ st with regs := adel st.regs i, map := adel st.map i,
                   set := setDel st.set r }, .ok true) := by
      simp [IterableWeakMap.delete, hk, hcond, optDerefVal_of_deref hd]
    rw [hdel]
    refine ⟨rfl, ?_, ?_⟩
    · simp [IterableWeakMap.has, IterableWeakMap.wmGet, aget_adel_same,
        optDerefVal]
    · simp [IterableWeakMap.delete, IterableWeakMap.wmGet, aget_adel_same,
        optDerefVal]
  · intro habs
    have hnone : aget stS.map i = none := by
      cases hag : aget stS.map i with
      | none => rfl
      | some r =>
        obtain ⟨htgt, -⟩ := hS (i, r) (aget_mem hag)
        have hd : r.deref live = some i := by
          have hm : r.target ∈ live := by rw [htgt]; exact hi
          rw [deref_live hm, htgt]
        have : IterableWeakSet.has stS live (.obj i) = true := by
          simp [IterableWeakSet.has, IterableWeakSet.wmGet, hag,
            optDerefVal_of_deref hd]
        rw [this] at habs
        cases habs
    simp [IterableWeakSet.delete, IterableWeakSet.wmGet, hnone]
  · intro hpres
    have hcond :
        optDerefVal (IterableWeakSet.wmGet stS (.obj i)) live = .obj i := by
      simpa [IterableWeakSet.has] using hpres
    obtain ⟨r, hk, hd, -, -⟩ := optDerefVal_obj hcond
    have hag : aget stS.map i = some r := hk
    obtain ⟨-, hrmem⟩ := hS (i, r) (aget_mem hag)
    have hdel : IterableWeakSet.delete stS (.obj i) =
        ({ stS with regs := adel stS.regs i, map := adel stS.map i,
                    set := setDel stS.set r }, .ok (decide (r ∈ stS.set))) := by
      simp [IterableWeakSet.delete, IterableWeakSet.wmGet, hag]
    rw [hdel]
    refine ⟨by simp [hrmem], ?_, ?_⟩
    · simp [IterableWeakSet.has, IterableWeakSet.wmGet, aget_adel_same,
        optDerefVal]
    · simp [IterableWeakSet.delete, IterableWeakSet.wmGet, aget_adel_same]

/-- Witness for C7: object 1 is present in `c7MapSt`/`c7SetSt` (both live),
so the present branch applies; the absent branch is vacuous there. -/
theorem c7_witness :
    (IterableWeakMap.has c7MapSt [1] (.obj 1) = false →
      IterableWeakMap.delete c7MapSt [1] (.obj 1) = (c7MapSt, .ok false)) ∧
    (IterableWeakMap.has c7MapSt [1] (.obj 1) = true →
      (IterableWeakMap.delete c7MapSt [1] (.obj 1)).2 = .ok true ∧
      IterableWeakMap.has (IterableWeakMap.delete c7MapSt [1] (.obj 1)).1 [1]
        (.obj 1) = false ∧
      IterableWeakMap.delete (IterableWeakMap.delete c7MapSt [1] (.obj 1)).1
        [1] (.obj 1) =
        ((IterableWeakMap.delete c7MapSt [1] (.obj 1)).1, .ok false)) ∧
    (IterableWeakSet.has c7SetSt [1] (.obj 1) = false →
      IterableWeakSet.delete c7SetSt (.obj 1) = (c7SetSt, .ok false)) ∧
    (IterableWeakSet.has c7SetSt [1] (.obj 1) = true →
      (IterableWeakSet.delete c7SetSt (.obj 1)).2 = .ok true ∧
      IterableWeakSet.has (IterableWeakSet.delete c7SetSt (.obj 1)).1 [1]
        (.obj 1) = false ∧
      IterableWeakSet.delete (IterableWeakSet.delete c7SetSt (.obj 1)).1
        (.obj 1) =
        ((IterableWeakSet.delete c7SetSt (.obj 1)).1, .ok false)) :=
  c7_idempotent_delete Nat c7MapSt c7SetSt [1] 1 (by decide)
    (by unfold c7SetSt; decide)

/-! ## Membership lemmas for the set-algebra layer -/

theorem has_emptySet (live : List Nat) (j : Nat) :
    IterableWeakSet.has IterableWeakSet.emptySet live (.obj j) = false := rfl

theorem foldAdd_nil (st : SetState) (live : List Nat) :
    foldAdd st live [] = st := rfl

theorem foldAdd_cons (st : SetState) (live : List Nat) (t : Nat)
    (l : List Nat) :
    foldAdd st live (t :: l) =
      foldAdd (IterableWeakSet.add st live (.obj t)).1 live l := rfl

theorem foldAdd_has (live : List Nat) (l : List Nat) (st : SetState)
    (hl : ∀ t ∈ l, t ∈ live) (hT : TargetsOk st) :
    TargetsOk (foldAdd st live l) ∧
    ∀ j : Nat,
      (IterableWeakSet.has (foldAdd st live l) live (.obj j) = true ↔
       (j ∈ l ∨ IterableWeakSet.has st live (.obj j) = true)) := by
  induction l generalizing st with
  | nil =>
    refine ⟨hT, fun j => ?_⟩
    rw [foldAdd_nil]
    simp
  | cons t ts ih =>
    have ht : t ∈ live := hl t (List.mem_cons_self t ts)
    obtain ⟨hT1, hhas⟩ := add_has st live t ht hT
    obtain ⟨hT2, hmem⟩ :=
      ih (IterableWeakSet.add st live (.obj t)).1
        (fun x hx => hl x (List.mem_cons_of_mem t hx)) hT1
    rw [foldAdd_cons]
    refine ⟨hT2, fun j => ?_⟩
    rw [hmem j, hhas j, List.mem_cons]
    tauto

theorem foldl_ite_add (live : List Nat) (q : Nat → Bool) (l : List Nat)
    (st : SetState) :
    l.foldl (fun acc t =>
        if q t then acc else (IterableWeakSet.add acc live (.obj t)).1) st =
      foldAdd st live (l.filter (fun t => !q t)) := by
  induction l generalizing st with
  | nil => rfl
  | cons t ts ih =>
    by_cases hq : q t
    · simp only [List.foldl_cons, hq, if_true, List.filter_cons,
        Bool.not_true]
      rw [ih]
      rfl
    · have hq2 : q t = false := by simp [hq]
      simp only [List.foldl_cons, hq2, Bool.false_eq_true, if_false,
        List.filter_cons, Bool.not_false]
      rw [ih]
      rfl

theorem mem_targets_iff_has (st : SetState) (live : List Nat)
    (h : WFset st live) (t : Nat) :
    t ∈ st.set.map (·.target) ↔
      IterableWeakSet.has st live (.obj t) = true := by
  constructor
  · intro hmem
    obtain ⟨r, hr, htgt⟩ := List.mem_map.mp hmem
    obtain ⟨hlive, hag⟩ := h.1 r hr
    have hd : r.deref live = some t := by
      rw [deref_live hlive, htgt]
    rw [htgt] at hag
    simp [IterableWeakSet.has, IterableWeakSet.wmGet, hag,
      optDerefVal_of_deref hd]
  · intro hhas
    have hcond :
        optDerefVal (IterableWeakSet.wmGet st (.obj t)) live = .obj t := by
      simpa [IterableWeakSet.has] using hhas
    obtain ⟨r, hk, hd, htgt, -⟩ := optDerefVal_obj hcond
    have hag : aget st.map t = some r := hk
    obtain ⟨-, -, hrmem⟩ := h.2 (t, r) (aget_mem hag)
    exact List.mem_map.mpr ⟨r, hrmem, htgt⟩

theorem valuesRun_all_live (st : SetState) (live : List Nat)
    (h : ∀ r ∈ st.set, r.target ∈ live) :
    IterableWeakSet.valuesRun st live = (st.set.map (·.target), st) := by
  simp [IterableWeakSet.valuesRun, sweepYield_all_live h]

theorem foldl_diff_body (live : List Nat) (B : SetState) (l : List Nat)
    (st : SetState) :
    l.foldl (fun acc t =>
        if IterableWeakSet.has B live (.obj t) then acc
        else (IterableWeakSet.add acc live (.obj t)).1) st =
      foldAdd st live
        (l.filter (fun t => !(IterableWeakSet.has B live (.obj t)))) :=
  foldl_ite_add live (fun t => IterableWeakSet.has B live (.obj t)) l st

/-- Claim C8: for finite `IterableWeakSet`s `A` and `B` satisfying the
documented index/registry invariant with all members live (no reclamation
during the operations), `A.difference(B)` and `B.difference(A)` have
disjoint membership, the union of their memberships is exactly the
membership of `A.symmetricDifference(B)`, and none of the three operations
mutates `A` or `B` (each allocates a fresh container). -/
theorem c8_set_algebra (A B : SetState) (live : List Nat)
    (hA : WFset A live) (hB : WFset B live) : C8Concl A B live := by
  have hAL : ∀ r ∈ A.set, r.target ∈ live := fun r hr => (hA.1 r hr).1
  have hBL : ∀ r ∈ B.set, r.target ∈ live := fun r hr => (hB.1 r hr).1
  have hvA := valuesRun_all_live A live hAL
  have hvB := valuesRun_all_live B live hBL
  have hTE : TargetsOk IterableWeakSet.emptySet := by
    intro p hp
    exact absurd hp (List.not_mem_nil p)
  have hl1 : ∀ t ∈ (A.set.map (·.target)).filter
      (fun t => !(IterableWeakSet.has B live (.obj t))), t ∈ live := by
    intro t ht
    obtain ⟨r, hr, rfl⟩ := List.mem_map.mp (List.mem_filter.mp ht).1
    exact hAL r hr
  have hl2 : ∀ t ∈ (B.set.map (·.target)).filter
      (fun t => !(IterableWeakSet.has A live (.obj t))), t ∈ live := by
    intro t ht
    obtain ⟨r, hr, rfl⟩ := List.mem_map.mp (List.mem_filter.mp ht).1
    exact hBL r hr
  have hDab : IterableWeakSet.differenceRun A B live =
      (foldAdd IterableWeakSet.emptySet live
        ((A.set.map (·.target)).filter
          (fun t => !(IterableWeakSet.has B live (.obj t)))), A) := by
    simp only [IterableWeakSet.differenceRun, hvA]
    rw [foldl_diff_body]
  have hDba : IterableWeakSet.differenceRun B A live =
      (foldAdd IterableWeakSet.emptySet live
        ((B.set.map (·.target)).filter
          (fun t => !(IterableWeakSet.has A live (.obj t)))), B) := by
    simp only [IterableWeakSet.differenceRun, hvB]
    rw [foldl_diff_body]
  have hSd : IterableWeakSet.symmetricDifferenceRun A B live =
      (foldAdd
        (foldAdd IterableWeakSet.emptySet live
          ((A.set.map (·.target)).filter
            (fun t => !(IterableWeakSet.has B live (.obj t))))) live
        ((B.set.map (·.target)).filter
          (fun t => !(IterableWeakSet.has A live (.obj t)))), A, B) := by
    simp only [IterableWeakSet.symmetricDifferenceRun, hvA, hvB]
    rw [foldl_diff_body, foldl_diff_body]
  obtain ⟨hT1, hm1⟩ :=
    foldAdd_has live
      ((A.set.map (·.target)).filter
        (fun t => !(IterableWeakSet.has B live (.obj t))))
      IterableWeakSet.emptySet hl1 hTE
  obtain ⟨-, hm2⟩ :=
    foldAdd_has live
      ((B.set.map (·.target)).filter
        (fun t => !(IterableWeakSet.has A live (.obj t))))
      IterableWeakSet.emptySet hl2 hTE
  obtain ⟨-, hmS⟩ :=
    foldAdd_has live
      ((B.set.map (·.target)).filter
        (fun t => !(IterableWeakSet.has A live (.obj t))))
      (foldAdd IterableWeakSet.emptySet live
        ((A.set.map (·.target)).filter
          (fun t => !(IterableWeakSet.has B live (.obj t)))))
      hl2 hT1
  have hf1 : ∀ j : Nat,
      (j ∈ (A.set.map (·.target)).filter
          (fun t => !(IterableWeakSet.has B live (.obj t))) ↔
       (IterableWeakSet.has A live (.obj j) = true ∧
        IterableWeakSet.has B live (.obj j) = false)) := by
    intro j
    constructor
    · intro hj
      obtain ⟨hjA, hjB⟩ := List.mem_filter.mp hj
      refine ⟨(mem_targets_iff_has A live hA j).mp hjA, ?_⟩
      simpa using hjB
    · rintro ⟨hjA, hjB⟩
      refine List.mem_filter.mpr
        ⟨(mem_targets_iff_has A live hA j).mpr hjA, ?_⟩
      simp [hjB]
  have hf2 : ∀ j : Nat,
      (j ∈ (B.set.map (·.target)).filter
          (fun t => !(IterableWeakSet.has A live (.obj t))) ↔
       (IterableWeakSet.has B live (.obj j) = true ∧
        IterableWeakSet.has A live (.obj j) = false)) := by
    intro j
    constructor
    · intro hj
      obtain ⟨hjB, hjA⟩ := List.mem_filter.mp hj
      refine ⟨(mem_targets_iff_has B live hB j).mp hjB, ?_⟩
      simpa using hjA
    · rintro ⟨hjB, hjA⟩
      refine List.mem_filter.mpr
        ⟨(mem_targets_iff_has B live hB j).mpr hjB, ?_⟩
      simp [hjA]
  have hmem1 : ∀ j : Nat,
      (IterableWeakSet.has (IterableWeakSet.differenceRun A B live).1 live
          (.obj j) = true ↔
       (IterableWeakSet.has A live (.obj j) = true ∧
        IterableWeakSet.has B live (.obj j) = false)) := by
    intro j
    have h1 := hm1 j
    simp only [has_emptySet, Bool.false_eq_true, or_false] at h1
    rw [hDab]
    exact h1.trans (hf1 j)
  have hmem2 : ∀ j : Nat,
      (IterableWeakSet.has (IterableWeakSet.differenceRun B A live).1 live
          (.obj j) = true ↔
       (IterableWeakSet.has B live (.obj j) = true ∧
        IterableWeakSet.has A live (.obj j) = false)) := by
    intro j
    have h2 := hm2 j
    simp only [has_emptySet, Bool.false_eq_true, or_false] at h2
    rw [hDba]
    exact h2.trans (hf2 j)
  have hmemS : ∀ j : Nat,
      (IterableWeakSet.has
          (IterableWeakSet.symmetricDifferenceRun A B live).1 live
          (.obj j) = true ↔
       ((IterableWeakSet.has B live (.obj j) = true ∧
         IterableWeakSet.has A live (.obj j) = false) ∨
        (IterableWeakSet.has A live (.obj j) = true ∧
         IterableWeakSet.has B live (.obj j) = false))) := by
    intro j
    have h1 := hm1 j
    simp only [has_emptySet, Bool.false_eq_true, or_false] at h1
    have hS1 := hmS j
    rw [hSd]
    exact hS1.trans (or_congr (hf2 j) (h1.trans (hf1 j)))
  refine ⟨?_, ?_, ?_, ?_, ?_, ?_⟩
  · intro t ht
    obtain ⟨h1, h2⟩ := ht
    obtain ⟨ha, hbf⟩ := (hmem1 t).mp h1
    obtain ⟨hb, haf⟩ := (hmem2 t).mp h2
    rw [ha] at haf
    cases haf
  · intro t
    rw [hmem1 t, hmem2 t, hmemS t]
    tauto
  · rw [hDab]
  · rw [hDba]
  · rw [hSd]
  · rw [hSd]

/-- Witness for C8: `A = {1, 2}`, `B = {2, 3}` (overlapping membership),
all of 1, 2, 3 live. -/
theorem c8_witness :
    WFset c8SetA [1, 2, 3] ∧ WFset c8SetB [1, 2, 3] ∧
    C8Concl c8SetA c8SetB [1, 2, 3] :=
  ⟨by unfold WFset; decide, by unfold WFset; decide,
   c8_set_algebra c8SetA c8SetB [1, 2, 3] (by unfold WFset; decide)
     (by unfold WFset; decide)⟩
